import Mathlib

/-!
Shallow embedding of the orchestration logic of `latent-ad-qml`:
the expressibility/entanglement driver (`compute_expr_ent.py`) and the
k-fold model tester (`scripts/kernel_machines/test.py`).

Circuits are embedded as gate lists; external estimators
(`triple_e.expressibility`, `triple_e.entanglement_capability`, the model
decision function, the backend configurator) are abstract function
parameters, since they live outside this repository.  The scalar type is a
type parameter `α` (a division ring) so that the definitions stay
executable; theorems instantiate it at `ℝ` with `pi = Real.pi` and
`sqrt = Real.sqrt`.
-/

namespace LatentAdQml

/-! ### Circuit factory (`u_dense_encoding*` in `compute_expr_ent.py`) -/

/-- A single gate of the embedded circuits: `u` rotations carry three angles
and a target qubit, `cx` carries control and target qubits. -/
inductive Gate (α : Type) where
  | u (theta phi lam : α) (q : ℕ)
  | cx (c t : ℕ)
deriving DecidableEq

/-- First rotation layer: for qubit `q`, a `u(π/2, x[2q], x[2q+1])` gate
(the `zip(range(0, nfeatures, 2), range(nqubits))` loop). -/
def layer1 {α : Type} [DivisionRing α] (pi : α) (x : ℕ → α) (n : ℕ) : List (Gate α) :=
  (List.range n).map (fun q => Gate.u (pi / 2) (x (2 * q)) (x (2 * q + 1)) q)

/-- Second rotation layer: for qubit `q`, a `u(x[2q], x[2q+1], 0)` gate. -/
def layer2 {α : Type} [DivisionRing α] (x : ℕ → α) (n : ℕ) : List (Gate α) :=
  (List.range n).map (fun q => Gate.u (x (2 * q)) (x (2 * q + 1)) 0 q)

/-- Nearest-neighbour chain of CNOTs: `cx(i, i+1)` for `i = 0 .. n-2`
(the loop with the `i == nqubits - 1: break` guard). -/
def chainGates (α : Type) (n : ℕ) : List (Gate α) :=
  (List.range (n - 1)).map (fun i => Gate.cx i (i + 1))

/-- All-pairs CNOTs: `cx(i, j)` for every `i < j`, in the order produced by
`itertools.combinations(range(nqubits), 2)`. -/
def allGates (α : Type) (n : ℕ) : List (Gate α) :=
  ((List.range n).flatMap
    (fun i => ((List.range n).filter (fun j => decide (i < j))).map (fun j => (i, j)))).map
    (fun p => Gate.cx p.1 p.2)

/-- The `for rep in range(reps)` loop: the same gate block is appended to the
(initially empty) circuit once per repetition. -/
def repLoop {α : Type} (body : List (Gate α)) (reps : ℕ) : List (Gate α) :=
  (List.range reps).foldl (fun acc _ => acc ++ body) []

/-- `u_dense_encoding_no_ent`: per repetition, the first rotation layer, and
(only when `ty = 0`) the second rotation layer.  No entangling gates. -/
def u_dense_encoding_no_ent {α : Type} [DivisionRing α] (pi : α) (x : ℕ → α)
    (nqubits reps ty : ℕ) : List (Gate α) :=
  repLoop (layer1 pi x nqubits ++ (if ty = 0 then layer2 x nqubits else [])) reps

/-- `u_dense_encoding`: per repetition, first rotation layer, chain of CNOTs,
second rotation layer. -/
def u_dense_encoding {α : Type} [DivisionRing α] (pi : α) (x : ℕ → α)
    (nqubits reps : ℕ) : List (Gate α) :=
  repLoop (layer1 pi x nqubits ++ chainGates α nqubits ++ layer2 x nqubits) reps

/-- `u_dense_encoding_all`: per repetition, first rotation layer, all-pairs
CNOTs, second rotation layer. -/
def u_dense_encoding_all {α : Type} [DivisionRing α] (pi : α) (x : ℕ → α)
    (nqubits reps : ℕ) : List (Gate α) :=
  repLoop (layer1 pi x nqubits ++ allGates α nqubits ++ layer2 x nqubits) reps

/-! ### Data loader (`get_data`) -/

/-- `get_data` rescaling: each loaded 2-D dataset is rescaled elementwise by
`dataset *= np.pi` followed by `dataset += np.pi`. -/
def get_data {α : Type} [Mul α] [Add α] (pi : α) (datasets : List (List α)) :
    List (List α) :=
  datasets.map (fun d => (d.map (fun v => v * pi)).map (fun v => v + pi))

/-! ### Generic list lemmas for the loop embeddings -/

theorem foldl_append_acc {γ δ : Type} (f : γ → List δ) :
    ∀ (l : List γ) (acc : List δ),
      l.foldl (fun a b => a ++ f b) acc = acc ++ l.flatMap f := by
  intro l
  induction l with
  | nil => intro acc; simp
  | cons hd tl ih =>
    intro acc
    simp only [List.foldl_cons, List.flatMap_cons]
    rw [ih, List.append_assoc]

theorem repLoop_eq_flatMap {α : Type} (body : List (Gate α)) (reps : ℕ) :
    repLoop body reps = (List.range reps).flatMap (fun _ => body) := by
  unfold repLoop
  rw [foldl_append_acc]
  simp

/-! ### C2: shared per-repetition structure of the circuit variants -/

/-- C2 (counterexample): the claim that *every* variant applies, per
repetition, a first rotation layer, then its entangling pattern, then a
second rotation layer is false for the type-1 no-entanglement circuit: at
`nqubits = 1`, `reps = 1`, the circuit consists of the first layer only, so
no choice of entangling-gate block makes it of the claimed shape. -/
theorem c2_counterexample_ne1_missing_second_layer :
    ¬ ∃ entGates : List (Gate ℝ),
      u_dense_encoding_no_ent Real.pi (fun _ => 0) 1 1 1 =
        layer1 Real.pi (fun _ => 0) 1 ++ entGates ++ layer2 (fun _ => 0) 1 := by
  rintro ⟨g, h⟩
  have hlen := congrArg List.length h
  simp [u_dense_encoding_no_ent, repLoop_eq_flatMap, layer1, layer2,
    Function.comp, List.range_succ] at hlen

/-- C2 (amended): the type-0 no-entanglement, chain, and all-pairs variants
share the per-repetition structure "first rotation layer, entangling pattern
(empty / adjacent pairs / all pairs), second rotation layer", for every
parameter vector, qubit count and repetition count; the type-1
no-entanglement variant applies only the first rotation layer per
repetition. -/
theorem c2_amended_variant_structure (x : ℕ → ℝ) (n reps : ℕ) :
    u_dense_encoding_no_ent Real.pi x n reps 0 =
      (List.range reps).flatMap
        (fun _ => layer1 Real.pi x n ++ ([] : List (Gate ℝ)) ++ layer2 x n)
    ∧ u_dense_encoding Real.pi x n reps =
      (List.range reps).flatMap
        (fun _ => layer1 Real.pi x n ++ chainGates ℝ n ++ layer2 x n)
    ∧ u_dense_encoding_all Real.pi x n reps =
      (List.range reps).flatMap
        (fun _ => layer1 Real.pi x n ++ allGates ℝ n ++ layer2 x n)
    ∧ u_dense_encoding_no_ent Real.pi x n reps 1 =
      (List.range reps).flatMap (fun _ => layer1 Real.pi x n) := by
  refine ⟨?_, ?_, ?_, ?_⟩
  · rw [u_dense_encoding_no_ent, repLoop_eq_flatMap]; simp
  · rw [u_dense_encoding, repLoop_eq_flatMap]
  · rw [u_dense_encoding_all, repLoop_eq_flatMap]
  · rw [u_dense_encoding_no_ent, repLoop_eq_flatMap]; simp

/-! ### C3: the data-loader rescaling map -/

/-- C3: the data loader rescales every element by exactly `x * π + π`; this
affine map is inverted by `y ↦ (y - π) / π`, and it sends `[0, 1)` into
`[0, 2π)`. -/
theorem c3_rescale_affine :
    (∀ ds : List (List ℝ),
      get_data Real.pi ds = ds.map (fun d => d.map (fun v => v * Real.pi + Real.pi)))
    ∧ (∀ v : ℝ, (v * Real.pi + Real.pi - Real.pi) / Real.pi = v)
    ∧ (∀ v : ℝ, 0 ≤ v → v < 1 →
        0 ≤ v * Real.pi + Real.pi ∧ v * Real.pi + Real.pi < 2 * Real.pi) := by
  refine ⟨?_, ?_, ?_⟩
  · intro ds
    unfold get_data
    simp [List.map_map, Function.comp]
  · intro v
    rw [add_sub_cancel_right, mul_div_assoc, div_self Real.pi_ne_zero, mul_one]
  · intro v h0 h1
    constructor
    · nlinarith [Real.pi_pos]
    · nlinarith [Real.pi_pos]

/-- Witness for C3 at the concrete input `v = 0`. -/
theorem c3_rescale_affine_witness :
    0 ≤ (0 : ℝ) ∧ (0 : ℝ) < 1 ∧
      (0 ≤ (0 : ℝ) * Real.pi + Real.pi ∧ (0 : ℝ) * Real.pi + Real.pi < 2 * Real.pi) :=
  ⟨le_refl 0, by norm_num, c3_rescale_affine.2.2 0 (le_refl 0) (by norm_num)⟩

/-! ### Circuit descriptors and `prepare_circs` -/

/-- Descriptor of one circuit closure built by `prepare_circs`: which factory
function it calls and with which `nqubits`, `reps` (and `type`) arguments. -/
inductive Circ where
  | noEnt (nqubits reps ty : ℕ)
  | chain (nqubits reps : ℕ)
  | allEnt (nqubits reps : ℕ)
deriving DecidableEq

/-- The gate list a descriptor denotes, through the circuit factory. -/
def circGates {α : Type} [DivisionRing α] (pi : α) (x : ℕ → α) : Circ → List (Gate α)
  | Circ.noEnt n r t => u_dense_encoding_no_ent pi x n r t
  | Circ.chain n r => u_dense_encoding pi x n r
  | Circ.allEnt n r => u_dense_encoding_all pi x n r

/-- Python `list.insert(idx, a)` semantics, including negative indices
(`insert(-1, a)` inserts *before the last element*) and clamping. -/
def pyInsert {γ : Type} (l : List γ) (idx : Int) (a : γ) : List γ :=
  let n : Int := l.length
  let k : Int := if idx < 0 then max (idx + n) 0 else min idx n
  l.take k.toNat ++ a :: l.drop k.toNat

/-- The row labels of the `expr_ent_vs_circ` table, in order. -/
def circuitLabels : List String :=
  ["NE_0", "NE_1", "L=1", "L=2", "L=3", "L=4", "L=5", "L=6", "FE"]

/-- `prepare_circs`: six chain circuits with `reps = 1 .. 6`, then
`insert(0, NE type=1)`, `insert(0, NE type=0)`, then
`insert(-1, all-entangling reps=3)`. -/
def prepareCircs (nq : ℕ) : List Circ :=
  let l0 := (List.range 6).map (fun k => Circ.chain nq (k + 1))
  let l1 := pyInsert l0 0 (Circ.noEnt nq 1 1)
  let l2 := pyInsert l1 0 (Circ.noEnt nq 1 0)
  pyInsert l2 (-1) (Circ.allEnt nq 3)

/-! ### The `compute_expr_ent_vs_circuit` driver -/

/-- One row of the output table (`circuit, expr, expr_err, ent, ent_err`). -/
structure Row (α : Type) where
  circuit : String
  expr : α
  expr_err : α
  ent : α
  ent_err : α
deriving DecidableEq

def defaultRow {α : Type} [Zero α] : Row α := ⟨"", 0, 0, 0, 0⟩

/-- Whether a label names one of the two no-entanglement circuits
(the `circuit_labels[i] in ['NE_0', 'NE_1']` test). -/
def isNE (lab : String) : Bool := lab == "NE_0" || lab == "NE_1"

/-- `np.mean` over a list of scalars. -/
def listMean {α : Type} [DivisionRing α] (l : List α) : α := l.sum / (l.length : α)

/-- `np.std` (population standard deviation) over a list of scalars, with the
square root passed explicitly. -/
def listStd {α : Type} [DivisionRing α] (sqrt : α → α) (l : List α) : α :=
  sqrt (listMean (l.map (fun v => (v - listMean l) ^ 2)))

/-- The `for _ in range(args["n_exp"]): expr.append(...)` loop: one
expressibility estimate appended per trial. -/
def exprRuns {α : Type} (exprEst : ℕ → Circ → α) (c : Circ) : ℕ → List α
  | 0 => []
  | n + 1 => exprRuns exprEst c n ++ [exprEst n c]

/-- The row the driver builds for one circuit: entanglement capability is
fixed at `0` for the no-entanglement labels and estimated otherwise; the
`ent`/`ent_err` columns are mean and standard deviation of the single
entanglement scalar (a 0-d `np.array`). -/
def circuitRow {α : Type} [DivisionRing α] (sqrt : α → α) (entCap : Circ → α)
    (exprEst : ℕ → Circ → α) (nExp : ℕ) (lab : String) (c : Circ) : Row α :=
  let valEnt : α := if isNE lab then 0 else entCap c
  let exprs := exprRuns exprEst c nExp
  ⟨lab, listMean exprs, listStd sqrt exprs, listMean [valEnt], listStd sqrt [valEnt]⟩

/-- The driver loop over `enumerate(circuits)`: builds one row per circuit
and records (as a list of loop indices) every invocation of the external
`entanglement_capability` estimator. -/
def driverAux {α : Type} [DivisionRing α] (sqrt : α → α) (entCap : Circ → α)
    (exprEst : ℕ → Circ → α) (nExp : ℕ) :
    ℕ → List (String × Circ) → List (Row α) × List ℕ
  | _, [] => ([], [])
  | i, (lab, c) :: rest =>
    let next := driverAux sqrt entCap exprEst nExp (i + 1) rest
    (circuitRow sqrt entCap exprEst nExp lab c :: next.1,
     (if isNE lab then [] else [i]) ++ next.2)

/-- `compute_expr_ent_vs_circuit`: the rows of the output table together with
the trace of entanglement-estimator invocations. -/
def compute_expr_ent_vs_circuit {α : Type} [DivisionRing α] (sqrt : α → α)
    (entCap : Circ → α) (exprEst : ℕ → Circ → α) (nExp : ℕ)
    (circs : List Circ) (labels : List String) : List (Row α) × List ℕ :=
  driverAux sqrt entCap exprEst nExp 0 (labels.zip circs)

def dummyPC : String × Circ := ("", Circ.chain 0 0)

/-! ### Structural lemmas about the driver -/

theorem listMean_singleton {α : Type} [DivisionRing α] (v : α) :
    listMean [v] = v := by
  simp [listMean]

theorem listStd_singleton {α : Type} [DivisionRing α] (sqrt : α → α) (v : α) :
    listStd sqrt [v] = sqrt 0 := by
  simp [listStd, listMean]

theorem exprRuns_eq_map {α : Type} (exprEst : ℕ → Circ → α) (c : Circ) :
    ∀ n : ℕ, exprRuns exprEst c n = (List.range n).map (fun t => exprEst t c) := by
  intro n
  induction n with
  | zero => simp [exprRuns]
  | succ m ih => rw [exprRuns, ih, List.range_succ, List.map_append]; simp

theorem driverAux_fst {α : Type} [DivisionRing α] (sqrt : α → α) (entCap : Circ → α)
    (exprEst : ℕ → Circ → α) (nExp : ℕ) :
    ∀ (ps : List (String × Circ)) (i : ℕ),
      (driverAux sqrt entCap exprEst nExp i ps).1 =
        ps.map (fun p => circuitRow sqrt entCap exprEst nExp p.1 p.2) := by
  intro ps
  induction ps with
  | nil => intro i; rfl
  | cons hd tl ih =>
    intro i
    rw [driverAux]
    simp [ih (i + 1)]

theorem driverAux_snd_mem {α : Type} [DivisionRing α] (sqrt : α → α) (entCap : Circ → α)
    (exprEst : ℕ → Circ → α) (nExp : ℕ) :
    ∀ (ps : List (String × Circ)) (i k : ℕ),
      k ∈ (driverAux sqrt entCap exprEst nExp i ps).2 →
        i ≤ k ∧ k - i < ps.length ∧ isNE ((ps.getD (k - i) dummyPC).1) = false := by
  intro ps
  induction ps with
  | nil => intro i k hk; simp [driverAux] at hk
  | cons hd tl ih =>
    intro i k hk
    rw [driverAux] at hk
    simp only [List.mem_append] at hk
    rcases hk with hk | hk
    · have hki : k = i := by
        by_cases hne : isNE hd.1
        · simp [hne] at hk
        · simp [hne] at hk; omega
      subst hki
      have hne : isNE hd.1 = false := by
        by_cases hne : isNE hd.1
        · simp [hne] at hk
        · simp [hne]
      refine ⟨le_refl k, by simp, ?_⟩
      simpa using hne
    · obtain ⟨h1, h2, h3⟩ := ih (i + 1) k hk
      refine ⟨by omega, by simp; omega, ?_⟩
      have hsub : k - i = (k - (i + 1)) + 1 := by omega
      rw [hsub]
      simpa using h3

theorem driverAux_snd_count {α : Type} [DivisionRing α] (sqrt : α → α) (entCap : Circ → α)
    (exprEst : ℕ → Circ → α) (nExp : ℕ) :
    ∀ (ps : List (String × Circ)) (i k : ℕ),
      k < ps.length → isNE ((ps.getD k dummyPC).1) = false →
        ((driverAux sqrt entCap exprEst nExp i ps).2).count (i + k) = 1 := by
  intro ps
  induction ps with
  | nil => intro i k hk; simp at hk
  | cons hd tl ih =>
    intro i k hk hne
    rw [driverAux]
    simp only [List.count_append]
    cases k with
    | zero =>
      have hhd : isNE hd.1 = false := by simpa using hne
      have hnot : (i + 0) ∉ (driverAux sqrt entCap exprEst nExp (i + 1) tl).2 := by
        intro hmem
        have := (driverAux_snd_mem sqrt entCap exprEst nExp tl (i + 1) (i + 0)) hmem
        omega
      rw [List.count_eq_zero_of_not_mem hnot]
      simp [hhd]
    | succ m =>
      have hm : m < tl.length := by simpa using hk
      have hmne : isNE ((tl.getD m dummyPC).1) = false := by simpa using hne
      have hrec := ih (i + 1) m hm hmne
      have harith : i + (m + 1) = (i + 1) + m := by omega
      rw [harith, hrec]
      by_cases hhd : isNE hd.1
      · simp [hhd]
      · have : (i == (i + 1) + m) = false := by
          simp only [beq_eq_false_iff_ne, ne_eq]
          omega
        simp [hhd, List.count_singleton, this]

theorem getD_map_of_lt {γ δ : Type} (f : γ → δ) (l : List γ) (i : ℕ) (hdd : γ)
    (dd : δ) (h : i < l.length) : (l.map f).getD i dd = f (l.getD i hdd) := by
  rw [List.getD_eq_getElem _ _ (by simpa using h), List.getElem_map,
    List.getD_eq_getElem _ _ h]

/-! ### C1: the `expr_ent_vs_circ` table and its label/circuit pairing -/

/-- C1 (code evaluation): `prepare_circs` builds exactly 9 circuits against
the 9 labels, but because `insert(-1, ·)` inserts *before* the last element,
the all-entangling `reps = 3` circuit sits at index 7 (label `L=6`) and the
chain `reps = 6` circuit at index 8 (label `FE`): the rows labelled `L=6`
and `FE` hold statistics of each other's circuit. -/
theorem c1_fe_l6_misaligned (entCap : Circ → ℝ) (exprEst : ℕ → Circ → ℝ) (nExp : ℕ) :
    circuitLabels.length = 9
    ∧ prepareCircs 4 =
        [Circ.noEnt 4 1 0, Circ.noEnt 4 1 1, Circ.chain 4 1, Circ.chain 4 2,
         Circ.chain 4 3, Circ.chain 4 4, Circ.chain 4 5, Circ.allEnt 4 3, Circ.chain 4 6]
    ∧ circuitLabels.getD 7 "" = "L=6"
    ∧ circuitLabels.getD 8 "" = "FE"
    ∧ ((compute_expr_ent_vs_circuit Real.sqrt entCap exprEst nExp (prepareCircs 4)
          circuitLabels).1.getD 7 defaultRow).circuit = "L=6"
    ∧ ((compute_expr_ent_vs_circuit Real.sqrt entCap exprEst nExp (prepareCircs 4)
          circuitLabels).1.getD 7 defaultRow).ent = entCap (Circ.allEnt 4 3)
    ∧ ((compute_expr_ent_vs_circuit Real.sqrt entCap exprEst nExp (prepareCircs 4)
          circuitLabels).1.getD 8 defaultRow).circuit = "FE"
    ∧ ((compute_expr_ent_vs_circuit Real.sqrt entCap exprEst nExp (prepareCircs 4)
          circuitLabels).1.getD 8 defaultRow).ent = entCap (Circ.chain 4 6) := by
  have hrows : (compute_expr_ent_vs_circuit Real.sqrt entCap exprEst nExp (prepareCircs 4)
      circuitLabels).1 =
      (circuitLabels.zip (prepareCircs 4)).map
        (fun p => circuitRow Real.sqrt entCap exprEst nExp p.1 p.2) :=
    driverAux_fst Real.sqrt entCap exprEst nExp (circuitLabels.zip (prepareCircs 4)) 0
  have hzip : circuitLabels.zip (prepareCircs 4) =
      [("NE_0", Circ.noEnt 4 1 0), ("NE_1", Circ.noEnt 4 1 1), ("L=1", Circ.chain 4 1),
       ("L=2", Circ.chain 4 2), ("L=3", Circ.chain 4 3), ("L=4", Circ.chain 4 4),
       ("L=5", Circ.chain 4 5), ("L=6", Circ.allEnt 4 3), ("FE", Circ.chain 4 6)] := by
    decide
  have hne6 : isNE "L=6" = false := by decide
  have hneFE : isNE "FE" = false := by decide
  refine ⟨rfl, by decide, rfl, rfl, ?_, ?_, ?_, ?_⟩
  · rw [hrows, hzip]; rfl
  · rw [hrows, hzip]
    simp only [List.map_cons, List.getD_cons_succ, List.getD_cons_zero, circuitRow,
      hne6, Bool.false_eq_true, if_false]
    exact listMean_singleton _
  · rw [hrows, hzip]; rfl
  · rw [hrows, hzip]
    simp only [List.map_cons, List.getD_cons_succ, List.getD_cons_zero, circuitRow,
      hneFE, Bool.false_eq_true, if_false]
    exact listMean_singleton _

/-! ### C4: no-entanglement rows -/

/-- C4: for every circuit list and label list given to the driver, whenever
the label at position `i` is one of the no-entanglement labels, the `ent`
value of row `i` is exactly `0` and the entanglement-capability estimator is
never invoked at that position. -/
theorem c4_no_ent_zero_never_estimated (entCap : Circ → ℝ) (exprEst : ℕ → Circ → ℝ)
    (nExp i : ℕ) (circs : List Circ) (labels : List String)
    (hi : i < (labels.zip circs).length)
    (hNE : isNE (((labels.zip circs).getD i dummyPC).1) = true) :
    (((compute_expr_ent_vs_circuit Real.sqrt entCap exprEst nExp circs labels).1.getD i
        defaultRow).ent = 0)
    ∧ i ∉ (compute_expr_ent_vs_circuit Real.sqrt entCap exprEst nExp circs labels).2 := by
  constructor
  · have hrows : (compute_expr_ent_vs_circuit Real.sqrt entCap exprEst nExp circs
        labels).1 = (labels.zip circs).map
          (fun p => circuitRow Real.sqrt entCap exprEst nExp p.1 p.2) :=
      driverAux_fst Real.sqrt entCap exprEst nExp (labels.zip circs) 0
    rw [hrows, getD_map_of_lt _ _ _ dummyPC _ hi]
    simp only [circuitRow, hNE, if_true]
    exact listMean_singleton _
  · intro hmem
    obtain ⟨-, -, hfalse⟩ :=
      driverAux_snd_mem Real.sqrt entCap exprEst nExp (labels.zip circs) 0 i hmem
    rw [Nat.sub_zero] at hfalse
    rw [hNE] at hfalse
    simp at hfalse

/-- Witness for C4: a one-circuit list labelled `NE_0`. -/
theorem c4_no_ent_zero_never_estimated_witness :
    (0 < ((["NE_0"].zip [Circ.chain 2 1]).length)
      ∧ isNE (((["NE_0"].zip [Circ.chain 2 1]).getD 0 dummyPC).1) = true)
    ∧ ((((compute_expr_ent_vs_circuit Real.sqrt (fun _ => (1 : ℝ)) (fun _ _ => 0) 1
          [Circ.chain 2 1] ["NE_0"]).1.getD 0 defaultRow).ent = 0)
        ∧ 0 ∉ (compute_expr_ent_vs_circuit Real.sqrt (fun _ => (1 : ℝ)) (fun _ _ => 0) 1
          [Circ.chain 2 1] ["NE_0"]).2) :=
  ⟨⟨by decide, by decide⟩,
    c4_no_ent_zero_never_estimated (fun _ => (1 : ℝ)) (fun _ _ => 0) 1 0
      [Circ.chain 2 1] ["NE_0"] (by decide) (by decide)⟩

/-! ### C7: estimator call counts for entangling circuits -/

/-- C7: for a circuit whose label is not a no-entanglement label, the driver
invokes the entanglement-capability estimator exactly once (recording its
single scalar in the `ent` column) and runs the expressibility estimator
exactly `n_exp` times, aggregating the `n_exp` scalars to their mean and
standard deviation. -/
theorem c7_ent_once_expr_n_times (entCap : Circ → ℝ) (exprEst : ℕ → Circ → ℝ)
    (nExp i : ℕ) (circs : List Circ) (labels : List String)
    (hi : i < (labels.zip circs).length)
    (hNE : isNE (((labels.zip circs).getD i dummyPC).1) = false) :
    ((compute_expr_ent_vs_circuit Real.sqrt entCap exprEst nExp circs labels).2).count i = 1
    ∧ (((compute_expr_ent_vs_circuit Real.sqrt entCap exprEst nExp circs labels).1.getD i
        defaultRow).ent = entCap (((labels.zip circs).getD i dummyPC).2))
    ∧ (((compute_expr_ent_vs_circuit Real.sqrt entCap exprEst nExp circs labels).1.getD i
        defaultRow).expr =
        listMean ((List.range nExp).map
          (fun t => exprEst t (((labels.zip circs).getD i dummyPC).2))))
    ∧ (((compute_expr_ent_vs_circuit Real.sqrt entCap exprEst nExp circs labels).1.getD i
        defaultRow).expr_err =
        listStd Real.sqrt ((List.range nExp).map
          (fun t => exprEst t (((labels.zip circs).getD i dummyPC).2))))
    ∧ ((List.range nExp).map
        (fun t => exprEst t (((labels.zip circs).getD i dummyPC).2))).length = nExp := by
  have hrows : (compute_expr_ent_vs_circuit Real.sqrt entCap exprEst nExp circs
      labels).1 = (labels.zip circs).map
        (fun p => circuitRow Real.sqrt entCap exprEst nExp p.1 p.2) :=
    driverAux_fst Real.sqrt entCap exprEst nExp (labels.zip circs) 0
  refine ⟨?_, ?_, ?_, ?_, by simp⟩
  · have := driverAux_snd_count Real.sqrt entCap exprEst nExp (labels.zip circs) 0 i hi hNE
    rw [Nat.zero_add] at this
    exact this
  · rw [hrows, getD_map_of_lt _ _ _ dummyPC _ hi]
    simp only [circuitRow, hNE, Bool.false_eq_true, if_false]
    exact listMean_singleton _
  · rw [hrows, getD_map_of_lt _ _ _ dummyPC _ hi]
    simp only [circuitRow, exprRuns_eq_map]
  · rw [hrows, getD_map_of_lt _ _ _ dummyPC _ hi]
    simp only [circuitRow, exprRuns_eq_map]

/-- Witness for C7: a one-circuit list labelled `L=1`. -/
theorem c7_ent_once_expr_n_times_witness :
    (0 < ((["L=1"].zip [Circ.chain 2 1]).length)
      ∧ isNE (((["L=1"].zip [Circ.chain 2 1]).getD 0 dummyPC).1) = false)
    ∧ (((compute_expr_ent_vs_circuit Real.sqrt (fun _ => (1 : ℝ)) (fun _ _ => 0) 2
          [Circ.chain 2 1] ["L=1"]).2).count 0 = 1
        ∧ (((compute_expr_ent_vs_circuit Real.sqrt (fun _ => (1 : ℝ)) (fun _ _ => 0) 2
          [Circ.chain 2 1] ["L=1"]).1.getD 0 defaultRow).ent =
          (fun _ : Circ => (1 : ℝ)) (((["L=1"].zip [Circ.chain 2 1]).getD 0 dummyPC).2))
        ∧ (((compute_expr_ent_vs_circuit Real.sqrt (fun _ => (1 : ℝ)) (fun _ _ => 0) 2
          [Circ.chain 2 1] ["L=1"]).1.getD 0 defaultRow).expr =
          listMean ((List.range 2).map
            (fun t => (fun _ : ℕ => fun _ : Circ => (0 : ℝ)) t
              (((["L=1"].zip [Circ.chain 2 1]).getD 0 dummyPC).2))))
        ∧ (((compute_expr_ent_vs_circuit Real.sqrt (fun _ => (1 : ℝ)) (fun _ _ => 0) 2
          [Circ.chain 2 1] ["L=1"]).1.getD 0 defaultRow).expr_err =
          listStd Real.sqrt ((List.range 2).map
            (fun t => (fun _ : ℕ => fun _ : Circ => (0 : ℝ)) t
              (((["L=1"].zip [Circ.chain 2 1]).getD 0 dummyPC).2))))
        ∧ ((List.range 2).map
            (fun t => (fun _ : ℕ => fun _ : Circ => (0 : ℝ)) t
              (((["L=1"].zip [Circ.chain 2 1]).getD 0 dummyPC).2))).length = 2) :=
  ⟨⟨by decide, by decide⟩,
    c7_ent_once_expr_n_times (fun _ => (1 : ℝ)) (fun _ _ => 0) 2 0
      [Circ.chain 2 1] ["L=1"] (by decide) (by decide)⟩

/-! ### C10: the `ent_err` column -/

/-- C10: in every row of the `expr_ent_vs_circ` table — entangling or not —
the `ent_err` column is exactly `0`, because the entanglement value is a
single scalar and the standard deviation of one sample is `0`. -/
theorem c10_ent_err_always_zero (entCap : Circ → ℝ) (exprEst : ℕ → Circ → ℝ)
    (nExp : ℕ) (circs : List Circ) (labels : List String) (i : ℕ) :
    (((compute_expr_ent_vs_circuit Real.sqrt entCap exprEst nExp circs labels).1.getD i
        defaultRow).ent_err) = 0 := by
  have hrows : (compute_expr_ent_vs_circuit Real.sqrt entCap exprEst nExp circs
      labels).1 = (labels.zip circs).map
        (fun p => circuitRow Real.sqrt entCap exprEst nExp p.1 p.2) :=
    driverAux_fst Real.sqrt entCap exprEst nExp (labels.zip circs) 0
  rw [hrows]
  by_cases hi : i < (labels.zip circs).length
  · rw [getD_map_of_lt _ _ _ dummyPC _ hi]
    simp only [circuitRow]
    rw [listStd_singleton]
    exact Real.sqrt_zero
  · rw [List.getD_eq_default]
    · rfl
    · simpa using Nat.le_of_not_lt hi

/-! ### The `expr_vs_nqubits` driver mode -/

/-- One row of the `expr_vs_qubits` table (`expr, expr_err`). -/
structure QRow (α : Type) where
  expr : α
  expr_err : α
deriving DecidableEq

def defaultQRow {α : Type} [Zero α] : QRow α := ⟨0, 0⟩

/-- The qubit-count sweep: `range(1, 10)` without a dataset, `[4, 8, 16]`
with one. -/
def qubitSweep (hasData : Bool) : List ℕ :=
  if hasData then [4, 8, 16] else (List.range 9).map (fun k => k + 1)

/-- The statistics row for one swept qubit count `n` at sweep position
`idx`: `n_exp` expressibility estimates (against `data[idx]` when a dataset
list is supplied) aggregated to mean and standard deviation. -/
def qrowFor {α : Type} [DivisionRing α] (sqrt : α → α)
    (est : ℕ → ℕ → Option (List (List α)) → α) (nExp : ℕ)
    (data : Option (List (List (List α)))) (idx n : ℕ) : QRow α :=
  let vals := (List.range nExp).map (fun t => est t n (data.map (fun ds => ds.getD idx [])))
  ⟨listMean vals, listStd sqrt vals⟩

/-- `expr_vs_nqubits`: the `for idx, n in enumerate(n_qubits)` loop, one row
appended per swept qubit count. -/
def expr_vs_nqubits {α : Type} [DivisionRing α] (sqrt : α → α)
    (est : ℕ → ℕ → Option (List (List α)) → α) (nExp : ℕ)
    (data : Option (List (List (List α)))) : List (QRow α) :=
  ((qubitSweep data.isSome).enum).foldl
    (fun acc p => acc ++ [qrowFor sqrt est nExp data p.1 p.2]) []

theorem foldl_append_singleton {γ δ : Type} (f : γ → δ) (l : List γ) :
    l.foldl (fun acc p => acc ++ [f p]) [] = l.map f := by
  rw [foldl_append_acc (fun p => [f p]) l []]
  rw [List.nil_append]
  induction l with
  | nil => rfl
  | cons hd tl ih => rw [List.flatMap_cons, List.map_cons, ih]; rfl

/-! ### C8: the qubit-count sweep -/

/-- C8: `expr_vs_nqubits` sweeps qubit count over exactly `1..9` without a
dataset and exactly `4, 8, 16` with one, produces exactly one row per swept
qubit count — row `idx` computed from the qubit count at sweep position
`idx` — and its standard-deviation column is non-negative. -/
theorem c8_expr_vs_qubits_sweep (est : ℕ → ℕ → Option (List (List ℝ)) → ℝ) (nExp : ℕ)
    (data : Option (List (List (List ℝ)))) :
    qubitSweep false = [1, 2, 3, 4, 5, 6, 7, 8, 9]
    ∧ qubitSweep true = [4, 8, 16]
    ∧ expr_vs_nqubits Real.sqrt est nExp data =
        ((qubitSweep data.isSome).enum).map
          (fun p => qrowFor Real.sqrt est nExp data p.1 p.2)
    ∧ (expr_vs_nqubits Real.sqrt est nExp data).length = (qubitSweep data.isSome).length
    ∧ ∀ i : ℕ,
        0 ≤ ((expr_vs_nqubits Real.sqrt est nExp data).getD i defaultQRow).expr_err := by
  have hmap : expr_vs_nqubits Real.sqrt est nExp data =
      ((qubitSweep data.isSome).enum).map
        (fun p => qrowFor Real.sqrt est nExp data p.1 p.2) :=
    foldl_append_singleton _ _
  refine ⟨by decide, rfl, hmap, ?_, ?_⟩
  · rw [hmap]; simp
  · intro i
    rw [hmap]
    by_cases hi : i < ((qubitSweep data.isSome).enum).length
    · rw [getD_map_of_lt _ _ _ (0, 0) _ hi]
      exact Real.sqrt_nonneg _
    · rw [List.getD_eq_default]
      · exact le_refl 0
      · simpa using Nat.le_of_not_lt hi

/-! ### The `main` dispatch (C6) -/

/-- The parsed CLI arguments of `compute_expr_ent.py`. -/
structure Args where
  n_qubits : ℕ
  n_shots : ℕ
  n_exp : ℕ
  out_path : String
  compute : String
  data_dependent : Bool

/-- The `choices` of the `--compute` CLI flag. -/
def computeChoices : List String :=
  ["expr_ent_vs_circ", "expr_vs_qubits", "var_kernel_vs_circ"]

/-- `main`: dispatch on `args["compute"]` through the `switcher` dictionary.
A known mode returns its result table and writes `<out_path>.csv`; an
unknown mode makes `switcher.get` return the `None` handler, and `main`
raises `TypeError("Given computation run does not exist!")` having written
nothing. -/
def mainRun {α : Type} [DivisionRing α] (sqrt : α → α) (entCap : Circ → α)
    (exprEst : ℕ → Circ → α) (estQ : ℕ → ℕ → Option (List (List α)) → α)
    (args : Args) (data : Option (List (List (List α)))) :
    Except String (Sum (List (Row α)) (List (QRow α)) × List String) :=
  if args.compute = "expr_ent_vs_circ" then
    Except.ok (Sum.inl (compute_expr_ent_vs_circuit sqrt entCap exprEst args.n_exp
      (prepareCircs args.n_qubits) circuitLabels).1, [args.out_path ++ ".csv"])
  else if args.compute = "expr_vs_qubits" then
    Except.ok (Sum.inr (expr_vs_nqubits sqrt estQ args.n_exp data),
      [args.out_path ++ ".csv"])
  else
    Except.error "Given computation run does not exist!"

/-- C6: any `--compute` value without an implemented handler — in particular
`var_kernel_vs_circ`, which the CLI accepts — makes `main` fail with the
typed user-facing error, returning no table and writing no result file. -/
theorem c6_unknown_compute_fails (entCap : Circ → ℝ) (exprEst : ℕ → Circ → ℝ)
    (estQ : ℕ → ℕ → Option (List (List ℝ)) → ℝ) (args : Args)
    (data : Option (List (List (List ℝ))))
    (h1 : args.compute ≠ "expr_ent_vs_circ") (h2 : args.compute ≠ "expr_vs_qubits") :
    mainRun Real.sqrt entCap exprEst estQ args data =
      Except.error "Given computation run does not exist!"
    ∧ "var_kernel_vs_circ" ∈ computeChoices
    ∧ ∀ payload, mainRun Real.sqrt entCap exprEst estQ args data ≠ Except.ok payload := by
  have herr : mainRun Real.sqrt entCap exprEst estQ args data =
      Except.error "Given computation run does not exist!" := by
    rw [mainRun, if_neg h1, if_neg h2]
  refine ⟨herr, by decide, ?_⟩
  intro payload hok
  rw [herr] at hok
  exact Except.noConfusion hok

/-- Witness for C6 at `--compute var_kernel_vs_circ`. -/
theorem c6_unknown_compute_fails_witness :
    ((Args.mk 8 50 5 "out" "var_kernel_vs_circ" false).compute ≠ "expr_ent_vs_circ"
      ∧ (Args.mk 8 50 5 "out" "var_kernel_vs_circ" false).compute ≠ "expr_vs_qubits")
    ∧ (mainRun Real.sqrt (fun _ => (0 : ℝ)) (fun _ _ => 0) (fun _ _ _ => 0)
        (Args.mk 8 50 5 "out" "var_kernel_vs_circ" false) none =
        Except.error "Given computation run does not exist!"
      ∧ "var_kernel_vs_circ" ∈ computeChoices
      ∧ ∀ payload, mainRun Real.sqrt (fun _ => (0 : ℝ)) (fun _ _ => 0) (fun _ _ _ => 0)
          (Args.mk 8 50 5 "out" "var_kernel_vs_circ" false) none ≠ Except.ok payload) :=
  ⟨⟨by decide, by decide⟩,
    c6_unknown_compute_fails (fun _ => (0 : ℝ)) (fun _ _ => 0) (fun _ _ _ => 0)
      (Args.mk 8 50 5 "out" "var_kernel_vs_circ" false) none (by decide) (by decide)⟩

/-! ### k-fold scoring (`scripts/kernel_machines/test.py`, `kfolds > 1`) -/

/-- `get_scores(model, data) = model.decision_function(data)`: the unit of
work submitted per fold to the process pool. -/
def get_scores {σ δ : Type} (decision : σ → List δ) (fold : σ) : List δ :=
  decision fold

/-- Reading back the worker results in submission order: worker `i` holds the
result keyed `i` in the completion log, whatever order the pool finished the
tasks in (`[worker.result() for worker in workers]`). -/
def gatherByWorker {δ : Type} (log : List (ℕ × List δ)) (n : ℕ) : List (List δ) :=
  (List.range n).map (fun i => (log.lookup i).getD [])

/-- `scores_all = np.concatenate((score_sig.flatten(), score_bkg.flatten()))`:
the gathered per-fold signal scores flattened, followed by the gathered
per-fold background scores flattened. -/
def kfoldScoresAll {δ : Type} (sigLog bkgLog : List (ℕ × List δ)) (nsig nbkg : ℕ) :
    List δ :=
  (gatherByWorker sigLog nsig).flatten ++ (gatherByWorker bkgLog nbkg).flatten

theorem lookup_mem {δ : Type} :
    ∀ (log : List (ℕ × δ)) (k : ℕ) (v : δ), log.lookup k = some v → (k, v) ∈ log := by
  intro log
  induction log with
  | nil => intro k v h; simp [List.lookup] at h
  | cons hd tl ih =>
    intro k v h
    obtain ⟨a, b⟩ := hd
    by_cases hk : k = a
    · subst hk
      simp [List.lookup] at h
      subst h
      exact List.mem_cons_self _ _
    · have hk2 : (k == a) = false := beq_eq_false_iff_ne.mpr hk
      rw [List.lookup, hk2] at h
      exact List.mem_cons_of_mem _ (ih k v h)

theorem lookup_isSome_of_mem {δ : Type} :
    ∀ (log : List (ℕ × δ)) (k : ℕ) (v : δ), (k, v) ∈ log →
      ∃ w, log.lookup k = some w := by
  intro log
  induction log with
  | nil => intro k v h; simp at h
  | cons hd tl ih =>
    intro k v h
    obtain ⟨a, b⟩ := hd
    by_cases hk : k = a
    · subst hk
      exact ⟨b, by simp [List.lookup]⟩
    · have hk2 : (k == a) = false := beq_eq_false_iff_ne.mpr hk
      rw [List.lookup, hk2]
      rcases List.mem_cons.mp h with heq | hmem
      · exact absurd (congrArg Prod.fst heq) hk
      · exact ih k v hmem

theorem lookup_of_perm_enum {δ : Type} (xs : List δ) (log : List (ℕ × δ))
    (h : log.Perm xs.enum) (i : ℕ) (hi : i < xs.length) :
    log.lookup i = some xs[i] := by
  have hxm : (i, xs[i]) ∈ xs.enum :=
    List.mk_mem_enum_iff_getElem?.mpr (List.getElem?_eq_getElem hi)
  have hlm : (i, xs[i]) ∈ log := h.mem_iff.mpr hxm
  obtain ⟨w, hw⟩ := lookup_isSome_of_mem log i xs[i] hlm
  have hwm : (i, w) ∈ xs.enum := h.mem_iff.mp (lookup_mem log i w hw)
  have hwi : xs[i]? = some w := List.mk_mem_enum_iff_getElem?.mp hwm
  rw [List.getElem?_eq_getElem hi] at hwi
  rw [hw, Option.some_inj.mp hwi]

theorem gatherByWorker_of_perm {δ : Type} (xs : List (List δ))
    (log : List (ℕ × List δ)) (h : log.Perm xs.enum) :
    gatherByWorker log xs.length = xs := by
  apply List.ext_getElem
  · simp [gatherByWorker]
  · intro i h1 h2
    have hi : i < xs.length := h2
    simp only [gatherByWorker, List.getElem_map, List.getElem_range]
    rw [lookup_of_perm_enum xs log h i hi]
    rfl

/-! ### C5: parallel dispatch-and-gather equals sequential fold scoring -/

/-- C5: whenever the pool's completion log is any permutation of the
per-task results (task `i` computing the decision function on fold `i`),
gathering by worker restores exactly the sequential per-fold score lists in
fold order, for signal and background alike, and the combined array is the
flattened signal scores followed by the flattened background scores. -/
theorem c5_kfold_parallel_eq_sequential {σ δ : Type} (decision : σ → List δ)
    (sigFold bkgFold : List σ) (sigLog bkgLog : List (ℕ × List δ))
    (hs : sigLog.Perm ((sigFold.map (get_scores decision)).enum))
    (hb : bkgLog.Perm ((bkgFold.map (get_scores decision)).enum)) :
    gatherByWorker sigLog sigFold.length = sigFold.map (get_scores decision)
    ∧ gatherByWorker bkgLog bkgFold.length = bkgFold.map (get_scores decision)
    ∧ kfoldScoresAll sigLog bkgLog sigFold.length bkgFold.length =
        (sigFold.map (get_scores decision)).flatten ++
          (bkgFold.map (get_scores decision)).flatten := by
  have hsig : gatherByWorker sigLog sigFold.length = sigFold.map (get_scores decision) := by
    have := gatherByWorker_of_perm (sigFold.map (get_scores decision)) sigLog hs
    simpa using this
  have hbkg : gatherByWorker bkgLog bkgFold.length = bkgFold.map (get_scores decision) := by
    have := gatherByWorker_of_perm (bkgFold.map (get_scores decision)) bkgLog hb
    simpa using this
  exact ⟨hsig, hbkg, by rw [kfoldScoresAll, hsig, hbkg]⟩

/-- Witness for C5: two signal folds whose completion log arrives out of
order, one background fold. -/
theorem c5_kfold_parallel_eq_sequential_witness :
    (([(1, [20]), (0, [10])] : List (ℕ × List ℕ)).Perm
        ((([10, 20] : List ℕ).map (get_scores (fun n => [n]))).enum)
      ∧ (([(0, [99])] : List (ℕ × List ℕ)).Perm
        ((([99] : List ℕ).map (get_scores (fun n => [n]))).enum)))
    ∧ (gatherByWorker [(1, [20]), (0, [10])] ([10, 20] : List ℕ).length =
        ([10, 20] : List ℕ).map (get_scores (fun n => [n]))
      ∧ gatherByWorker [(0, [99])] ([99] : List ℕ).length =
        ([99] : List ℕ).map (get_scores (fun n => [n]))
      ∧ kfoldScoresAll [(1, [20]), (0, [10])] [(0, [99])]
          ([10, 20] : List ℕ).length ([99] : List ℕ).length =
        (([10, 20] : List ℕ).map (get_scores (fun n => [n]))).flatten ++
          (([99] : List ℕ).map (get_scores (fun n => [n]))).flatten) :=
  ⟨⟨by decide, by decide⟩,
    c5_kfold_parallel_eq_sequential (fun n => [n]) [10, 20] [99]
      [(1, [20]), (0, [10])] [(0, [99])] (by decide) (by decide)⟩

/-! ### Model tester main (`scripts/kernel_machines/test.py`) -/

/-- The backend configuration dictionary assigned by the tester. -/
structure BackendCfg where
  optimization_level : ℕ
  initial_layout : List ℕ
  seed_transpiler : ℕ
  shots : ℕ
deriving DecidableEq

/-- The hardware configuration the tester installs:
`optimization_level=3`, `initial_layout=[5,8,11,14,13,12,10,7]`,
`seed_transpiler=12345`, `shots=10000`. -/
def hardwareBackendCfg : BackendCfg := ⟨3, [5, 8, 11, 14, 13, 12, 10, 7], 12345, 10000⟩

/-- The mutable fields of a loaded QSVM model that `test.py` touches or
leaves alone: `_backend_config`, `_quantum_instance`, `_backend`,
`_quantum_kernel`, `_feature_map`, `_kernel_matrix_test`. -/
structure TModel (QI BE QK FM KM : Type) where
  backend_config : BackendCfg
  quantum_instance : QI
  backend : BE
  quantum_kernel : QK
  feature_map : FM
  kernel_matrix_test : KM
deriving DecidableEq

/-- `test.py` `main` after model loading: returns the (possibly
reconfigured) model together with the list of files it writes.  With
`kfolds = 1` it reconfigures the backend fields exactly when
`mod_quantum_instance` is set, then writes the scores file and the test
kernel matrix; with `kfolds ≠ 1` it scores the folds and writes the
per-fold signal and background score files, the kernel matrix for one-class
models, and the score-distribution plot, without touching the model. -/
def test_main {QI BE QK FM KM δ : Type}
    (configure_quantum_instance : Option String → String → String → BackendCfg → QI × BE)
    (mkQuantumKernel : FM → QI → QK)
    (ibmq_config : Option String) (kfolds : ℕ) (mod_quantum_instance : Bool)
    (ntest : ℕ) (test_features : List δ) (is_one_class : Bool)
    (model : TModel QI BE QK FM KM) : TModel QI BE QK FM KM × List String :=
  if kfolds = 1 then
    let m :=
      if mod_quantum_instance then
        let cfg := hardwareBackendCfg
        let qb := configure_quantum_instance ibmq_config "hardware" "ibmq_toronto" cfg
        { model with
            backend_config := cfg
            quantum_instance := qb.1
            backend := qb.2
            quantum_kernel := mkQuantumKernel model.feature_map qb.1 }
      else model
    (m, ["scores_n" ++ toString ntest ++ "_k" ++ toString kfolds ++ ".npy",
         "kernel_matrix_test.npy"])
  else
    (model,
      ["sig_scores_n" ++ toString ntest ++ "_k" ++ toString kfolds ++ ".npy",
       "bkg_scores_n" ++ toString ntest ++ "_k" ++ toString kfolds ++ ".npy"]
      ++ (if is_one_class then ["kernel_matrix_test.npy"] else [])
      ++ ["score_distributions_plot"])

/-! ### C9: when the tester reconfigures the model, and what it writes -/

/-- C9: the tester assigns the model's backend fields (backend config,
quantum instance, backend, quantum kernel) exactly when `kfolds = 1` and
`mod_quantum_instance` is set — the other fields stay as loaded even then —
in every other run the whole model is left unchanged, and a `kfolds = 1`
run with the flag unset writes exactly two files: the scores array and the
test kernel matrix. -/
theorem c9_tester_frame {QI BE QK FM KM δ : Type}
    (configure_quantum_instance : Option String → String → String → BackendCfg → QI × BE)
    (mkQuantumKernel : FM → QI → QK) (ibmq_config : Option String)
    (kfolds : ℕ) (mod_quantum_instance : Bool) (ntest : ℕ)
    (test_features : List δ) (is_one_class : Bool) (model : TModel QI BE QK FM KM) :
    (¬(kfolds = 1 ∧ mod_quantum_instance = true) →
      (test_main configure_quantum_instance mkQuantumKernel ibmq_config kfolds
        mod_quantum_instance ntest test_features is_one_class model).1 = model)
    ∧ (kfolds = 1 → mod_quantum_instance = true →
      (test_main configure_quantum_instance mkQuantumKernel ibmq_config kfolds
        mod_quantum_instance ntest test_features is_one_class model).1 =
        { model with
            backend_config := hardwareBackendCfg
            quantum_instance := (configure_quantum_instance ibmq_config "hardware"
              "ibmq_toronto" hardwareBackendCfg).1
            backend := (configure_quantum_instance ibmq_config "hardware"
              "ibmq_toronto" hardwareBackendCfg).2
            quantum_kernel := mkQuantumKernel model.feature_map
              (configure_quantum_instance ibmq_config "hardware"
                "ibmq_toronto" hardwareBackendCfg).1 })
    ∧ (kfolds = 1 → mod_quantum_instance = false →
      (test_main configure_quantum_instance mkQuantumKernel ibmq_config kfolds
        mod_quantum_instance ntest test_features is_one_class model).2 =
        ["scores_n" ++ toString ntest ++ "_k" ++ toString kfolds ++ ".npy",
         "kernel_matrix_test.npy"]) := by
  refine ⟨?_, ?_, ?_⟩
  · intro hnot
    by_cases hk : kfolds = 1
    · have hm : mod_quantum_instance = false := by
        cases mod_quantum_instance with
        | false => rfl
        | true => exact absurd ⟨hk, rfl⟩ hnot
      simp [test_main, hk, hm]
    · simp [test_main, hk]
  · intro hk hm
    simp [test_main, hk, hm]
  · intro hk hm
    simp [test_main, hk, hm]

/-- Witness for C9: a concrete `kfolds = 1`, flag-unset run. -/
theorem c9_tester_frame_witness :
    (¬((1 : ℕ) = 1 ∧ false = true) ∧ (1 : ℕ) = 1 ∧ false = false)
    ∧ ((test_main (fun _ _ _ _ => ((0 : ℕ), (0 : ℕ))) (fun _ _ => (0 : ℕ))
          none 1 false 720 ([] : List ℕ) false
          (TModel.mk ⟨0, [], 0, 0⟩ 0 0 0 (0 : ℕ) (0 : ℕ))).1 =
        TModel.mk ⟨0, [], 0, 0⟩ 0 0 0 (0 : ℕ) (0 : ℕ)
      ∧ (test_main (fun _ _ _ _ => ((0 : ℕ), (0 : ℕ))) (fun _ _ => (0 : ℕ))
          none 1 false 720 ([] : List ℕ) false
          (TModel.mk ⟨0, [], 0, 0⟩ 0 0 0 (0 : ℕ) (0 : ℕ))).2 =
        ["scores_n" ++ toString (720 : ℕ) ++ "_k" ++ toString (1 : ℕ) ++ ".npy",
         "kernel_matrix_test.npy"]) :=
  ⟨⟨by decide, rfl, rfl⟩,
    (c9_tester_frame (fun _ _ _ _ => ((0 : ℕ), (0 : ℕ))) (fun _ _ => (0 : ℕ))
      none 1 false 720 ([] : List ℕ) false
      (TModel.mk ⟨0, [], 0, 0⟩ 0 0 0 (0 : ℕ) (0 : ℕ))).1 (by decide),
    (c9_tester_frame (fun _ _ _ _ => ((0 : ℕ), (0 : ℕ))) (fun _ _ => (0 : ℕ))
      none 1 false 720 ([] : List ℕ) false
      (TModel.mk ⟨0, [], 0, 0⟩ 0 0 0 (0 : ℕ) (0 : ℕ))).2.2 rfl rfl⟩

end LatentAdQml
